import Mathlib

/-!
Verification of the Paella VQ autoencoder
(src/src/diffusers/models/vq_paella.py).

Tensors are modelled as 4D arrays over the rationals: a shape
(batch, channels, height, width) together with a total data function on
indices.  Each layer of the network is translated from the source
(PyTorch layers are given their documented inference semantics; learned
weights are abstract parameters of the instance).  The two repository
components that are referenced by the source but are not part of the
sources under verification, MixingResidualBlock and VectorQuantizer, are
modelled from the spec as abstract collaborators carried by the instance.
-/

/-- A 4D tensor: batch size, channels, height, width, and the values. -/
structure Tensor where
  n : ℕ
  c : ℕ
  h : ℕ
  w : ℕ
  data : ℕ → ℕ → ℕ → ℕ → ℚ

/-- The shape of a tensor as a tuple (batch, channels, height, width). -/
def Tensor.shape (t : Tensor) : ℕ × ℕ × ℕ × ℕ := (t.n, t.c, t.h, t.w)

/-- Zero-padded read: value at integer coordinates, 0 outside the tensor. -/
def padGet (t : Tensor) (b c : ℕ) (y x : ℤ) : ℚ :=
  if 0 ≤ y ∧ y < (t.h : ℤ) ∧ 0 ≤ x ∧ x < (t.w : ℤ) then
    t.data b c y.toNat x.toNat
  else 0

/-- Weights of a convolution layer: kernel entries indexed by
(out-or-in channel, in-or-out channel, ky, kx) and a bias per channel. -/
structure ConvW where
  w : ℕ → ℕ → ℕ → ℕ → ℚ
  b : ℕ → ℚ

/-- nn.PixelUnshuffle(r): moves r x r spatial blocks into channels. -/
def pixelUnshuffle (r : ℕ) (t : Tensor) : Tensor where
  n := t.n
  c := t.c * r ^ 2
  h := t.h / r
  w := t.w / r
  data := fun b cc y x =>
    t.data b (cc / r ^ 2) (y * r + cc % r ^ 2 / r) (x * r + cc % r ^ 2 % r)

/-- nn.PixelShuffle(r): moves channels back into r x r spatial blocks. -/
def pixelShuffle (r : ℕ) (t : Tensor) : Tensor where
  n := t.n
  c := t.c / r ^ 2
  h := t.h * r
  w := t.w * r
  data := fun b cc y x =>
    t.data b (cc * r ^ 2 + y % r * r + x % r) (y / r) (x / r)

/-- nn.Conv2d with kernel_size=1 (pointwise channel projection). -/
def conv1x1 (outC : ℕ) (p : ConvW) (t : Tensor) : Tensor where
  n := t.n
  c := outC
  h := t.h
  w := t.w
  data := fun b o y x =>
    p.b o + ∑ ci ∈ Finset.range t.c, p.w o ci 0 0 * t.data b ci y x

/-- nn.Conv2d with kernel_size=1 and bias=False. -/
def conv1x1NoBias (outC : ℕ) (wt : ℕ → ℕ → ℚ) (t : Tensor) : Tensor where
  n := t.n
  c := outC
  h := t.h
  w := t.w
  data := fun b o y x =>
    ∑ ci ∈ Finset.range t.c, wt o ci * t.data b ci y x

/-- nn.Conv2d with kernel_size=4, stride=2, padding=1.  The spatial output
size follows the PyTorch formula (H + 2*padding - kernel) / stride + 1,
computed over the integers and truncated to a natural number. -/
def conv4s2 (outC : ℕ) (p : ConvW) (t : Tensor) : Tensor where
  n := t.n
  c := outC
  h := (((t.h : ℤ) + 2 * 1 - 4) / 2 + 1).toNat
  w := (((t.w : ℤ) + 2 * 1 - 4) / 2 + 1).toNat
  data := fun b o y x =>
    p.b o + ∑ ci ∈ Finset.range t.c, ∑ i ∈ Finset.range 4, ∑ j ∈ Finset.range 4,
      p.w o ci i j * padGet t b ci (2 * (y : ℤ) + (i : ℤ) - 1) (2 * (x : ℤ) + (j : ℤ) - 1)

/-- Read used by the transposed convolution: an output position receives a
contribution from an input position only when the stride-2 grid hits it. -/
def tpadGet (t : Tensor) (b c : ℕ) (y x : ℤ) : ℚ :=
  if y % 2 = 0 ∧ x % 2 = 0 then padGet t b c (y / 2) (x / 2) else 0

/-- nn.ConvTranspose2d with kernel_size=4, stride=2, padding=1.  The spatial
output size follows the PyTorch formula (H - 1)*stride - 2*padding + kernel. -/
def tconv4s2 (outC : ℕ) (p : ConvW) (t : Tensor) : Tensor where
  n := t.n
  c := outC
  h := (((t.h : ℤ) - 1) * 2 - 2 * 1 + 4).toNat
  w := (((t.w : ℤ) - 1) * 2 - 2 * 1 + 4).toNat
  data := fun b o y x =>
    p.b o + ∑ ci ∈ Finset.range t.c, ∑ i ∈ Finset.range 4, ∑ j ∈ Finset.range 4,
      p.w ci o i j * tpadGet t b ci ((y : ℤ) + 1 - (i : ℤ)) ((x : ℤ) + 1 - (j : ℤ))

/-- nn.BatchNorm2d in inference mode: a fixed per-channel affine map, with
scale = gamma / sqrt(running_var + eps) and shift = beta - running_mean * scale
folded into two abstract per-channel parameters. -/
def batchNorm2d (scale shift : ℕ → ℚ) (t : Tensor) : Tensor where
  n := t.n
  c := t.c
  h := t.h
  w := t.w
  data := fun b cc y x => t.data b cc y x * scale cc + shift cc

/-- Elementwise division of a tensor by a scalar (the encode rescaling step). -/
def scaleDiv (t : Tensor) (s : ℚ) : Tensor :=
  { t with data := fun b cc y x => t.data b cc y x / s }

/-- Elementwise multiplication of a tensor by a scalar (the decode rescaling step). -/
def scaleMul (t : Tensor) (s : ℚ) : Tensor :=
  { t with data := fun b cc y x => t.data b cc y x * s }

/-- The channel-width schedule built by the constructor, translated from
the source line c_levels = [c_hidden // (2**i) for i in reversed(range(levels))]. -/
def buildCLevels (c_hidden levels : ℕ) : List ℕ :=
  ((List.range levels).reverse).map fun i => c_hidden / 2 ^ i

/-- The VQModelPaella instance: the configuration record of the constructor
together with the learned parameters of every layer.  MixingResidualBlock and
VectorQuantizer live in repository files outside the verified sources and are
carried as abstract functions. -/
structure VQModelPaella where
  in_channels : ℕ := 3
  out_channels : ℕ := 3
  up_down_scale_factor : ℕ := 2
  levels : ℕ := 2
  bottleneck_blocks : ℕ := 12
  c_hidden : ℕ := 384
  c_latent : ℕ := 4
  codebook_size : ℕ := 8192
  scale_factor : ℚ := 3764 / 10000
  /-- weights of the 1x1 convolution inside in_block -/
  in_conv : ConvW
  /-- weights of the stride-2 downsampling convolution of each level -/
  down_convs : ℕ → ConvW
  /-- Modelled from the spec: MixingResidualBlock (models/resnet.py is not
  among the verified sources) is a residual block combining channel mixing and
  spatial mixing with a skip connection; it is carried as an abstract
  tensor-to-tensor block per level of the downsampling cascade. -/
  down_mix : ℕ → Tensor → Tensor
  /-- weights of the bias-free 1x1 convolution producing the latent -/
  latent_conv_w : ℕ → ℕ → ℚ
  /-- inference-mode per-channel scale of the BatchNorm2d after the latent conv -/
  bn_scale : ℕ → ℚ
  /-- inference-mode per-channel shift of the BatchNorm2d after the latent conv -/
  bn_shift : ℕ → ℚ
  /-- Modelled from the spec: VectorQuantizer (models/vae.py is not among the
  verified sources) maps a continuous latent to (quantized tensor,
  commitment-loss scalar, auxiliary info); it is carried as an abstract
  collaborator. -/
  vquantizer : Tensor → Tensor × ℚ × ℚ
  /-- weights of the first 1x1 convolution of the decode cascade -/
  up_in_conv : ConvW
  /-- Modelled from the spec: the MixingResidualBlock instances of the decode
  cascade, indexed by level and repetition. -/
  up_mix : ℕ → ℕ → Tensor → Tensor
  /-- weights of the stride-2 transposed convolution of each decode level -/
  up_tconvs : ℕ → ConvW
  /-- weights of the 1x1 convolution inside out_block -/
  out_conv : ConvW

namespace VQModelPaella

/-- Entry i of the channel-width schedule of an instance. -/
def cLevel (m : VQModelPaella) (i : ℕ) : ℕ :=
  (buildCLevels m.c_hidden m.levels).getD i 0

/-- self.in_block: PixelUnshuffle then 1x1 projection to c_levels[0]. -/
def inBlock (m : VQModelPaella) (x : Tensor) : Tensor :=
  conv1x1 (m.cLevel 0) m.in_conv (pixelUnshuffle m.up_down_scale_factor x)

/-- One iteration of the constructor loop building down_blocks: for level i,
a stride-2 convolution when i > 0, then the MixingResidualBlock of the level. -/
def downStage (m : VQModelPaella) (t : Tensor) (i : ℕ) : Tensor :=
  let t1 := if 0 < i then conv4s2 (m.cLevel i) (m.down_convs i) t else t
  m.down_mix i t1

/-- self.down_blocks: the per-level stages, then the bias-free 1x1 convolution
to c_latent followed by BatchNorm2d. -/
def downBlocksRun (m : VQModelPaella) (t : Tensor) : Tensor :=
  batchNorm2d m.bn_scale m.bn_shift
    (conv1x1NoBias m.c_latent m.latent_conv_w
      ((List.range m.levels).foldl m.downStage t))

/-- The tensor computed by encode: in_block, then down_blocks, then
elementwise division by the configured scale factor. -/
def encodeBody (m : VQModelPaella) (x : Tensor) : Tensor :=
  scaleDiv (m.downBlocksRun (m.inBlock x)) m.scale_factor

/-- One iteration of the constructor loop building up_blocks: for level i,
bottleneck_blocks MixingResidualBlocks when i = 0 and one otherwise, then a
stride-2 transposed convolution when i < levels - 1. -/
def upStage (m : VQModelPaella) (t : Tensor) (i : ℕ) : Tensor :=
  let t1 := (List.range (if i = 0 then m.bottleneck_blocks else 1)).foldl
    (fun a j => m.up_mix i j a) t
  if i < m.levels - 1 then
    tconv4s2 (m.cLevel (m.levels - 2 - i)) (m.up_tconvs i) t1
  else t1

/-- self.up_blocks: the 1x1 convolution from c_latent to c_levels[-1], then
the per-level decode stages. -/
def upBlocksRun (m : VQModelPaella) (t : Tensor) : Tensor :=
  (List.range m.levels).foldl m.upStage
    (conv1x1 (m.cLevel (m.levels - 1)) m.up_in_conv t)

/-- self.out_block: 1x1 convolution to out_channels * scale^2, then PixelShuffle. -/
def outBlock (m : VQModelPaella) (t : Tensor) : Tensor :=
  pixelShuffle m.up_down_scale_factor
    (conv1x1 (m.out_channels * m.up_down_scale_factor ^ 2) m.out_conv t)

/-- The tensor computed by decode: optional quantization of the rescaled
latent (keeping only the quantized tensor, as in quant, _, _ = ...), then
up_blocks and out_block. -/
def decodeBody (m : VQModelPaella) (hl : Tensor) (force_not_quantize : Bool) : Tensor :=
  let quant := if force_not_quantize = false then
      (m.vquantizer (scaleMul hl m.scale_factor)).1
    else scaleMul hl m.scale_factor
  m.outBlock (m.upBlocksRun quant)

end VQModelPaella

/-- The structured output of encode (latents field). -/
structure VQEncoderOutput where
  latents : Tensor

/-- The structured output of decode and forward (sample field). -/
structure DecoderOutput where
  sample : Tensor

/-- Return value of encode: a one-element tuple or the structured output. -/
inductive EncodeRet where
  | tup (h : Tensor)
  | out (v : VQEncoderOutput)

/-- Return value of decode and forward: a one-element tuple or the structured output. -/
inductive DecodeRet where
  | tup (dec : Tensor)
  | out (v : DecoderOutput)

/-- The tensor carried by either form of an encode result. -/
def EncodeRet.latentsOf : EncodeRet → Tensor
  | .tup h => h
  | .out v => v.latents

/-- The tensor carried by either form of a decode result. -/
def DecodeRet.sampleOf : DecodeRet → Tensor
  | .tup dec => dec
  | .out v => v.sample

namespace VQModelPaella

/-- VQModelPaella.encode, translated line by line from the source. -/
def encode (m : VQModelPaella) (x : Tensor) (return_dict : Bool) : EncodeRet :=
  let h := m.inBlock x
  let h := scaleDiv (m.downBlocksRun h) m.scale_factor
  if return_dict = false then .tup h else .out ⟨h⟩

/-- VQModelPaella.decode, translated line by line from the source. -/
def decode (m : VQModelPaella) (hl : Tensor) (force_not_quantize : Bool)
    (return_dict : Bool) : DecodeRet :=
  let quant := if force_not_quantize = false then
      (m.vquantizer (scaleMul hl m.scale_factor)).1
    else scaleMul hl m.scale_factor
  let x := m.upBlocksRun quant
  let dec := m.outBlock x
  if return_dict = false then .tup dec else .out ⟨dec⟩

/-- VQModelPaella.forward, translated line by line from the source: encode
with default arguments, take .latents, decode with default arguments, take
.sample. -/
def forward (m : VQModelPaella) (sample : Tensor) (return_dict : Bool) : DecodeRet :=
  let x := sample
  let h := (m.encode x true).latentsOf
  let dec := (m.decode h true true).sampleOf
  if return_dict = false then .tup dec else .out ⟨dec⟩

/-- State-passing form of encode: the method reads the instance and assigns
no attribute, so it returns the instance it was called on. -/
def encodeSt (m : VQModelPaella) (x : Tensor) (return_dict : Bool) :
    EncodeRet × VQModelPaella :=
  (m.encode x return_dict, m)

/-- State-passing form of decode. -/
def decodeSt (m : VQModelPaella) (hl : Tensor) (force_not_quantize : Bool)
    (return_dict : Bool) : DecodeRet × VQModelPaella :=
  (m.decode hl force_not_quantize return_dict, m)

/-- State-passing form of forward, threading the instance through the
encode and decode calls it makes. -/
def forwardSt (m : VQModelPaella) (sample : Tensor) (return_dict : Bool) :
    DecodeRet × VQModelPaella :=
  let (h, m1) := m.encodeSt sample true
  let (dec, m2) := m1.decodeSt h.latentsOf true true
  if return_dict = false then (.tup dec.sampleOf, m2) else (.out ⟨dec.sampleOf⟩, m2)

end VQModelPaella

/-! Concrete instances used by counterexamples and witnesses. -/

/-- All-zero convolution weights. -/
def zeroConvW : ConvW := ⟨fun _ _ _ _ => 0, fun _ => 0⟩

/-- An instance with the default configuration of the source constructor
(scale 2, levels 2, hidden 384, latent 4) and concrete parameters. -/
def M2 : VQModelPaella where
  in_conv := zeroConvW
  down_convs := fun _ => zeroConvW
  down_mix := fun _ t => t
  latent_conv_w := fun _ _ => 0
  bn_scale := fun _ => 1
  bn_shift := fun _ => 0
  vquantizer := fun t => (t, 0, 0)
  up_in_conv := zeroConvW
  up_mix := fun _ _ t => t
  up_tconvs := fun _ => zeroConvW
  out_conv := zeroConvW

/-- An instance with up/down scale factor 3 and otherwise default configuration. -/
def M3 : VQModelPaella := { M2 with up_down_scale_factor := 3 }

/-- An instance with up/down scale factor 4 and otherwise default configuration. -/
def M4 : VQModelPaella := { M2 with up_down_scale_factor := 4 }

/-- A 1 x 3 x 9 x 9 input image. -/
def X9 : Tensor := ⟨1, 3, 9, 9, fun _ _ _ _ => 0⟩

/-- A 1 x 3 x 32 x 32 input image. -/
def X32 : Tensor := ⟨1, 3, 32, 32, fun _ _ _ _ => 0⟩

/-- A 1 x 3 x 64 x 64 input image. -/
def X64 : Tensor := ⟨1, 3, 64, 64, fun _ _ _ _ => 0⟩

/-- A small tensor with nonconstant entries. -/
def T0 : Tensor := ⟨1, 4, 2, 2, fun b cc y x => (b : ℚ) + cc + y * 2 + x + 1⟩

/-! Claim theorems on composition, structure, scaling, purity and output form. -/

/-- Claim C2: on the same instance, the tensor computed by forward is exactly
the tensor computed by decode applied to the tensor computed by encode with
quantization disabled (the decode default), for either value of return_dict. -/
theorem vq_forward_eq_decode_encode (m : VQModelPaella) (x : Tensor) :
    ((m.forward x true).sampleOf
        = ((m.decode ((m.encode x true).latentsOf) true true).sampleOf) ∧
      (m.forward x false).sampleOf
        = ((m.decode ((m.encode x true).latentsOf) true true).sampleOf)) ∧
    (m.forward x true).sampleOf = m.decodeBody (m.encodeBody x) true := by
  exact ⟨⟨rfl, rfl⟩, rfl⟩

/-- Claim C6: encode applies the input stage (pixel unshuffle then the 1x1
projection), then the downsampling cascade, then divides elementwise by the
configured scale factor; and encode never invokes the vector quantizer: its
result is unchanged under an arbitrary replacement of the quantizer. -/
theorem vq_encode_structure (m : VQModelPaella) (x : Tensor)
    (q : Tensor → Tensor × ℚ × ℚ) :
    m.encodeBody x = scaleDiv (m.downBlocksRun (m.inBlock x)) m.scale_factor ∧
    m.inBlock x = conv1x1 (m.cLevel 0) m.in_conv (pixelUnshuffle m.up_down_scale_factor x) ∧
    VQModelPaella.encodeBody { m with vquantizer := q } x = m.encodeBody x ∧
    VQModelPaella.encode { m with vquantizer := q } x true = m.encode x true ∧
    VQModelPaella.encode { m with vquantizer := q } x false = m.encode x false := by
  exact ⟨rfl, rfl, rfl, rfl, rfl⟩

/-- Claim C7: when quantization is requested, decode multiplies the latent by
the scale factor, feeds the product to the vector quantizer, keeps only the
first component of its result, and runs the decode cascade on it; when
quantization is not requested, decode runs the cascade on the scaled latent
directly, and the result is unchanged under an arbitrary replacement of the
quantizer. -/
theorem vq_decode_structure (m : VQModelPaella) (hl : Tensor)
    (q : Tensor → Tensor × ℚ × ℚ) :
    m.decodeBody hl false
      = m.outBlock (m.upBlocksRun ((m.vquantizer (scaleMul hl m.scale_factor)).1)) ∧
    m.decodeBody hl true = m.outBlock (m.upBlocksRun (scaleMul hl m.scale_factor)) ∧
    VQModelPaella.decodeBody { m with vquantizer := q } hl true = m.decodeBody hl true ∧
    VQModelPaella.decode { m with vquantizer := q } hl true true = m.decode hl true true ∧
    VQModelPaella.decode { m with vquantizer := q } hl true false = m.decode hl true false := by
  exact ⟨rfl, rfl, rfl, rfl, rfl⟩

/-- Claim C8: the scaling step of encode (elementwise division by the scale
factor) composed with the scaling step of decode (elementwise multiplication
by the same factor) recovers the tensor exactly, for any nonzero factor. -/
theorem vq_scale_roundtrip (t : Tensor) (s : ℚ) (hs : s ≠ 0) :
    scaleMul (scaleDiv t s) s = t := by
  cases t with
  | mk n c h w d =>
    simp only [scaleMul, scaleDiv, Tensor.mk.injEq, true_and, and_true]
    funext b cc y x
    exact div_mul_cancel₀ (d b cc y x) hs

/-- Witness for claim C8 at the default scale factor of the source and a
concrete tensor. -/
theorem vq_scale_roundtrip_witness :
    (3764 / 10000 : ℚ) ≠ 0 ∧
      scaleMul (scaleDiv T0 (3764 / 10000)) (3764 / 10000) = T0 :=
  ⟨by norm_num, vq_scale_roundtrip T0 (3764 / 10000) (by norm_num)⟩

/-- Claim C9: encode, decode and forward neither mutate the instance (the
state-passing translations return it unchanged) nor depend on anything but
the instance and their tensor arguments: a second call on the returned
instance with the same input yields the same output. -/
theorem vq_purity (m : VQModelPaella) (x hl : Tensor) (rd fnq : Bool) :
    ((m.encodeSt x rd).2 = m ∧ (m.decodeSt hl fnq rd).2 = m ∧ (m.forwardSt x rd).2 = m) ∧
    (((m.encodeSt x rd).2.encodeSt x rd).1 = (m.encodeSt x rd).1 ∧
      ((m.decodeSt hl fnq rd).2.decodeSt hl fnq rd).1 = (m.decodeSt hl fnq rd).1 ∧
      ((m.forwardSt x rd).2.forwardSt x rd).1 = (m.forwardSt x rd).1) ∧
    ((m.encodeSt x rd).1 = m.encode x rd ∧
      (m.decodeSt hl fnq rd).1 = m.decode hl fnq rd ∧
      (m.forwardSt x rd).1 = m.forward x rd) := by
  cases rd <;> exact ⟨⟨rfl, rfl, rfl⟩, ⟨rfl, rfl, rfl⟩, ⟨rfl, rfl, rfl⟩⟩

/-- Claim C10: for encode, decode and forward alike, return_dict = false
yields the one-element tuple holding exactly the tensor that the structured
output carries when return_dict = true; the choice never changes the tensor. -/
theorem vq_return_dict (m : VQModelPaella) (x hl : Tensor) (fnq : Bool) :
    (m.encode x false = .tup (m.encodeBody x) ∧
      m.encode x true = .out ⟨m.encodeBody x⟩) ∧
    (m.decode hl fnq false = .tup (m.decodeBody hl fnq) ∧
      m.decode hl fnq true = .out ⟨m.decodeBody hl fnq⟩) ∧
    (m.forward x false = .tup (m.decodeBody (m.encodeBody x) true) ∧
      m.forward x true = .out ⟨m.decodeBody (m.encodeBody x) true⟩) := by
  exact ⟨⟨rfl, rfl⟩, ⟨rfl, rfl⟩, ⟨rfl, rfl⟩⟩

/-! The channel-width schedule of the constructor. -/

/-- The schedule has one entry per level. -/
lemma buildCLevels_length (c_hidden levels : ℕ) :
    (buildCLevels c_hidden levels).length = levels := by
  simp [buildCLevels]

/-- Entry i of the schedule is c_hidden divided (flooring) by 2^(levels-1-i). -/
lemma buildCLevels_getD (c_hidden levels i : ℕ) (hi : i < levels) :
    (buildCLevels c_hidden levels).getD i 0 = c_hidden / 2 ^ (levels - 1 - i) := by
  have hlen : i < (buildCLevels c_hidden levels).length := by
    rw [buildCLevels_length]; exact hi
  rw [List.getD_eq_getElem _ _ hlen]
  simp [buildCLevels, List.getElem_reverse, List.getElem_range]

/-- Claim C5: for every configuration with at least one level, the schedule
built by the constructor satisfies c_levels[i] = c_hidden // 2^(levels-1-i)
for every i below levels, and its last entry (index levels-1) is c_hidden. -/
theorem vq_clevels_schedule (c_hidden levels : ℕ) (hL : 1 ≤ levels) :
    (∀ i, i < levels →
      (buildCLevels c_hidden levels).getD i 0 = c_hidden / 2 ^ (levels - 1 - i)) ∧
    (buildCLevels c_hidden levels).getD (levels - 1) 0 = c_hidden := by
  refine ⟨fun i hi => buildCLevels_getD _ _ _ hi, ?_⟩
  rw [buildCLevels_getD _ _ _ (by omega)]
  simp [Nat.sub_self]

/-- Witness for claim C5 at the default configuration values. -/
theorem vq_clevels_schedule_witness :
    (∀ i, i < 2 → (buildCLevels 384 2).getD i 0 = 384 / 2 ^ (2 - 1 - i)) ∧
    (buildCLevels 384 2).getD (2 - 1) 0 = 384 :=
  vq_clevels_schedule 384 2 (by decide)

/-- Counterexample for claim C4: constructing with c_hidden = 5 and
levels = 2, where 2^(levels-1) does not divide c_hidden, is not rejected
(the schedule is built, as the value [2, 5] shows) and the floor-division
schedule invariant c_levels[i] = c_hidden // 2^(levels-1-i) holds rather
than fails; so neither disjunct of the claim holds.  The construction is in
fact silently accepted with a schedule that breaks exact halving, as the
adjacent-pair inequality shows. -/
theorem vq_clevels_cex :
    buildCLevels 5 2 = [2, 5] ∧
    (buildCLevels 5 2).getD 0 0 = 5 / 2 ^ (2 - 1 - 0) ∧
    (buildCLevels 5 2).getD 1 0 = 5 / 2 ^ (2 - 1 - 1) ∧
    (buildCLevels 5 2).getD 1 0 ≠ 2 * (buildCLevels 5 2).getD 0 0 ∧
    ¬ 2 ^ (2 - 1) ∣ 5 := by decide

/-- Claim C4 (amended): construction with a c_hidden not divisible by
2^(levels-1) is never rejected and the schedule still deterministically
equals the floor-division formula c_levels[i] = c_hidden // 2^(levels-1-i);
what fails is exact halving: some adjacent pair of the schedule has
c_levels[i+1] different from 2 * c_levels[i]. -/
theorem vq_clevels_not_dvd (c_hidden levels : ℕ)
    (h : ¬ 2 ^ (levels - 1) ∣ c_hidden) :
    (∀ i, i < levels →
      (buildCLevels c_hidden levels).getD i 0 = c_hidden / 2 ^ (levels - 1 - i)) ∧
    ∃ i, i + 1 < levels ∧
      (buildCLevels c_hidden levels).getD (i + 1) 0
        ≠ 2 * (buildCLevels c_hidden levels).getD i 0 := by
  have hform := fun i hi => buildCLevels_getD c_hidden levels i hi
  refine ⟨hform, ?_⟩
  by_contra hc
  push_neg at hc
  have hL2 : 2 ≤ levels := by
    by_contra hL
    have h1 : levels - 1 = 0 := by omega
    rw [h1] at h
    exact h (by simp)
  have chain : ∀ j, j + 1 ≤ levels - 1 →
      c_hidden / 2 ^ j = 2 * (c_hidden / 2 ^ (j + 1)) := by
    intro j hj
    have hi1 : levels - 2 - j + 1 < levels := by omega
    have hi0 : levels - 2 - j < levels := by omega
    have hstep := hc (levels - 2 - j) hi1
    rw [hform _ hi1, hform _ hi0] at hstep
    have e1 : levels - 1 - (levels - 2 - j + 1) = j := by omega
    have e2 : levels - 1 - (levels - 2 - j) = j + 1 := by omega
    rw [e1, e2] at hstep
    exact hstep
  have pow_div : ∀ j, j ≤ levels - 1 → c_hidden = 2 ^ j * (c_hidden / 2 ^ j) := by
    intro j
    induction j with
    | zero => intro _; simp
    | succ k ih =>
      intro hk
      have hk' : k ≤ levels - 1 := by omega
      have hrec := ih hk'
      rw [chain k (by omega)] at hrec
      calc c_hidden = 2 ^ k * (2 * (c_hidden / 2 ^ (k + 1))) := hrec
        _ = 2 ^ (k + 1) * (c_hidden / 2 ^ (k + 1)) := by ring
  exact h ⟨c_hidden / 2 ^ (levels - 1), pow_div (levels - 1) le_rfl⟩

/-- Witness for the amended claim C4 at c_hidden = 5, levels = 2. -/
theorem vq_clevels_not_dvd_witness :
    (∀ i, i < 2 → (buildCLevels 5 2).getD i 0 = 5 / 2 ^ (2 - 1 - i)) ∧
    ∃ i, i + 1 < 2 ∧
      (buildCLevels 5 2).getD (i + 1) 0 ≠ 2 * (buildCLevels 5 2).getD i 0 :=
  vq_clevels_not_dvd 5 2 (by decide)

/-! Shape lemmas for the individual layers and the cascades. -/

/-- A tensor-to-tensor block that preserves the shape of its input, the
contract the spec gives for MixingResidualBlock. -/
def PreservesShape (f : Tensor → Tensor) : Prop :=
  ∀ t, (f t).shape = t.shape

/-- Shape equality componentwise. -/
lemma shape_eq_iff {u v : Tensor} :
    u.shape = v.shape ↔ u.n = v.n ∧ u.c = v.c ∧ u.h = v.h ∧ u.w = v.w := by
  simp [Tensor.shape, Prod.ext_iff]

/-- Folding shape-preserving blocks preserves the shape. -/
lemma foldl_preserves_shape {α : Type} (g : Tensor → α → Tensor)
    (hg : ∀ u a, (g u a).shape = u.shape) (l : List α) (t : Tensor) :
    (l.foldl g t).shape = t.shape := by
  induction l generalizing t with
  | nil => rfl
  | cons a l ih => rw [List.foldl_cons, ih, hg]

/-- The stride-2 convolution halves an even positive height. -/
lemma conv4s2_h (outC : ℕ) (p : ConvW) (t : Tensor) (h2 : 2 ∣ t.h) (hh : 0 < t.h) :
    (conv4s2 outC p t).h = t.h / 2 := by
  simp only [conv4s2]
  omega

/-- The stride-2 convolution halves an even positive width. -/
lemma conv4s2_w (outC : ℕ) (p : ConvW) (t : Tensor) (w2 : 2 ∣ t.w) (hw : 0 < t.w) :
    (conv4s2 outC p t).w = t.w / 2 := by
  simp only [conv4s2]
  omega

/-- The stride-2 transposed convolution doubles the height. -/
lemma tconv4s2_h (outC : ℕ) (p : ConvW) (t : Tensor) :
    (tconv4s2 outC p t).h = 2 * t.h := by
  simp only [tconv4s2]
  omega

/-- The stride-2 transposed convolution doubles the width. -/
lemma tconv4s2_w (outC : ℕ) (p : ConvW) (t : Tensor) :
    (tconv4s2 outC p t).w = 2 * t.w := by
  simp only [tconv4s2]
  omega

/-- Spatial shape through the downsampling cascade: levels - 1 stride-2
convolutions interleaved with shape-preserving mixing blocks divide each
spatial dimension by 2^(levels-1). -/
lemma down_fold_shape (m : VQModelPaella)
    (hmix : ∀ i, PreservesShape (m.down_mix i)) :
    ∀ (L : ℕ) (t : Tensor), 2 ^ (L - 1) ∣ t.h → 2 ^ (L - 1) ∣ t.w →
    0 < t.h → 0 < t.w →
    ((List.range L).foldl m.downStage t).n = t.n ∧
    ((List.range L).foldl m.downStage t).h = t.h / 2 ^ (L - 1) ∧
    ((List.range L).foldl m.downStage t).w = t.w / 2 ^ (L - 1) := by
  intro L
  induction L with
  | zero => intro t _ _ _ _; simp
  | succ K ih =>
    intro t hdh hdw hh hw
    rw [List.range_succ, List.foldl_append, List.foldl_cons, List.foldl_nil]
    cases K with
    | zero =>
      simp only [List.range_zero, List.foldl_nil]
      have e0 : m.downStage t 0 = m.down_mix 0 t := by
        simp [VQModelPaella.downStage]
      rw [e0]
      obtain ⟨sn, _, sh, sw⟩ := shape_eq_iff.mp (hmix 0 t)
      simp [sn, sh, sw]
    | succ K' =>
      have hdh' : 2 ^ (K' + 1 - 1) ∣ t.h :=
        dvd_trans (pow_dvd_pow 2 (by omega)) hdh
      have hdw' : 2 ^ (K' + 1 - 1) ∣ t.w :=
        dvd_trans (pow_dvd_pow 2 (by omega)) hdw
      obtain ⟨pn, ph, pw⟩ := ih t hdh' hdw' hh hw
      obtain ⟨a, ha⟩ := hdh
      obtain ⟨b, hb⟩ := hdw
      have ha' : 0 < a := by
        rcases Nat.eq_zero_or_pos a with h0 | h0
        · rw [h0, mul_zero] at ha; omega
        · exact h0
      have hb' : 0 < b := by
        rcases Nat.eq_zero_or_pos b with h0 | h0
        · rw [h0, mul_zero] at hb; omega
        · exact h0
      have eexp : K' + 1 + 1 - 1 = K' + 1 := by omega
      have hta : t.h = 2 ^ K' * (2 * a) := by rw [ha, eexp, pow_succ]; ring
      have htb : t.w = 2 ^ K' * (2 * b) := by rw [hb, eexp, pow_succ]; ring
      have hph : ((List.range (K' + 1)).foldl m.downStage t).h = 2 * a := by
        rw [ph, Nat.add_sub_cancel, hta,
          Nat.mul_div_cancel_left _ (Nat.two_pow_pos K')]
      have hpw : ((List.range (K' + 1)).foldl m.downStage t).w = 2 * b := by
        rw [pw, Nat.add_sub_cancel, htb,
          Nat.mul_div_cancel_left _ (Nat.two_pow_pos K')]
      have estage : ∀ u : Tensor, m.downStage u (K' + 1)
          = m.down_mix (K' + 1) (conv4s2 (m.cLevel (K' + 1)) (m.down_convs (K' + 1)) u) := by
        intro u
        simp [VQModelPaella.downStage]
      rw [estage]
      set prev := (List.range (K' + 1)).foldl m.downStage t with hprev
      obtain ⟨sn, _, sh, sw⟩ := shape_eq_iff.mp
        (hmix (K' + 1) (conv4s2 (m.cLevel (K' + 1)) (m.down_convs (K' + 1)) prev))
      have hcn : (conv4s2 (m.cLevel (K' + 1)) (m.down_convs (K' + 1)) prev).n = prev.n := rfl
      have hch : (conv4s2 (m.cLevel (K' + 1)) (m.down_convs (K' + 1)) prev).h = prev.h / 2 :=
        conv4s2_h _ _ _ (by rw [hph]; exact Dvd.intro a rfl) (by rw [hph]; omega)
      have hcw : (conv4s2 (m.cLevel (K' + 1)) (m.down_convs (K' + 1)) prev).w = prev.w / 2 :=
        conv4s2_w _ _ _ (by rw [hpw]; exact Dvd.intro b rfl) (by rw [hpw]; omega)
      refine ⟨?_, ?_, ?_⟩
      · rw [sn, hcn, pn]
      · rw [sh, hch, hph]
        rw [ha, Nat.add_sub_cancel]
        rw [Nat.mul_div_cancel_left _ (by omega : (0:ℕ) < 2),
          Nat.mul_div_cancel_left _ (Nat.two_pow_pos (K' + 1))]
      · rw [sw, hcw, hpw]
        rw [hb, Nat.add_sub_cancel]
        rw [Nat.mul_div_cancel_left _ (by omega : (0:ℕ) < 2),
          Nat.mul_div_cancel_left _ (Nat.two_pow_pos (K' + 1))]

/-- Spatial shape through the first j stages of the decode cascade: the
stride-2 transposed convolutions (one per stage except the last level)
multiply each spatial dimension by 2^(min j (levels-1)). -/
lemma up_fold_shape (m : VQModelPaella)
    (hmix : ∀ i j, PreservesShape (m.up_mix i j)) :
    ∀ (j : ℕ), j ≤ m.levels → ∀ (t : Tensor),
    ((List.range j).foldl m.upStage t).n = t.n ∧
    ((List.range j).foldl m.upStage t).h = t.h * 2 ^ (min j (m.levels - 1)) ∧
    ((List.range j).foldl m.upStage t).w = t.w * 2 ^ (min j (m.levels - 1)) := by
  intro j
  induction j with
  | zero => intro _ t; simp
  | succ K ih =>
    intro hK t
    rw [List.range_succ, List.foldl_append, List.foldl_cons, List.foldl_nil]
    obtain ⟨pn, ph, pw⟩ := ih (by omega) t
    set prev := (List.range K).foldl m.upStage t with hprev
    have hinner : ((List.range (if K = 0 then m.bottleneck_blocks else 1)).foldl
        (fun a j => m.up_mix K j a) prev).shape = prev.shape :=
      foldl_preserves_shape _ (fun v a => hmix K a v) _ prev
    obtain ⟨qn, _, qh, qw⟩ := shape_eq_iff.mp hinner
    set inner := (List.range (if K = 0 then m.bottleneck_blocks else 1)).foldl
      (fun a j => m.up_mix K j a) prev with hinner_def
    by_cases hlt : K < m.levels - 1
    · have estage : m.upStage prev K
          = tconv4s2 (m.cLevel (m.levels - 2 - K)) (m.up_tconvs K) inner := by
        simp only [VQModelPaella.upStage, hlt, if_pos]
      rw [estage]
      have e1 : min K (m.levels - 1) = K := by omega
      have e2 : min (K + 1) (m.levels - 1) = K + 1 := by omega
      refine ⟨?_, ?_, ?_⟩
      · show inner.n = t.n
        rw [qn, pn]
      · rw [tconv4s2_h, qh, ph, e1, e2, pow_succ]
        ring
      · rw [tconv4s2_w, qw, pw, e1, e2, pow_succ]
        ring
    · have estage : m.upStage prev K = inner := by
        simp only [VQModelPaella.upStage, hlt, if_neg, not_false_iff]
      rw [estage]
      have e3 : min (K + 1) (m.levels - 1) = min K (m.levels - 1) := by omega
      exact ⟨qn.trans pn, by rw [qh, ph, e3], by rw [qw, pw, e3]⟩

/-- Shape of the tensor computed by encode: batch preserved, channels
c_latent, spatial dimensions divided by scale * 2^(levels-1). -/
lemma encodeBody_shape_aux (m : VQModelPaella) (x : Tensor)
    (hmix : ∀ i, PreservesShape (m.down_mix i))
    (hr : 0 < m.up_down_scale_factor)
    (hrh : m.up_down_scale_factor ∣ x.h) (hrw : m.up_down_scale_factor ∣ x.w)
    (h2h : 2 ^ (m.levels - 1) ∣ x.h / m.up_down_scale_factor)
    (h2w : 2 ^ (m.levels - 1) ∣ x.w / m.up_down_scale_factor)
    (hh : 0 < x.h) (hw : 0 < x.w) :
    (m.encodeBody x).n = x.n ∧ (m.encodeBody x).c = m.c_latent ∧
    (m.encodeBody x).h = x.h / (m.up_down_scale_factor * 2 ^ (m.levels - 1)) ∧
    (m.encodeBody x).w = x.w / (m.up_down_scale_factor * 2 ^ (m.levels - 1)) := by
  have hph : 0 < x.h / m.up_down_scale_factor :=
    Nat.div_pos (Nat.le_of_dvd hh hrh) hr
  have hpw : 0 < x.w / m.up_down_scale_factor :=
    Nat.div_pos (Nat.le_of_dvd hw hrw) hr
  obtain ⟨fn, fh, fw⟩ := down_fold_shape m hmix m.levels (m.inBlock x) h2h h2w hph hpw
  refine ⟨?_, rfl, ?_, ?_⟩
  · exact fn
  · exact fh.trans (Nat.div_div_eq_div_mul _ _ _)
  · exact fw.trans (Nat.div_div_eq_div_mul _ _ _)

/-- Shape of the tensor computed by decode on the non-quantizing path:
batch preserved, channels out_channels, spatial dimensions multiplied by
2^(levels-1) * scale. -/
lemma decodeBody_shape_aux (m : VQModelPaella) (t : Tensor)
    (hmix : ∀ i j, PreservesShape (m.up_mix i j))
    (hr : 0 < m.up_down_scale_factor) :
    (m.decodeBody t true).n = t.n ∧ (m.decodeBody t true).c = m.out_channels ∧
    (m.decodeBody t true).h = t.h * 2 ^ (m.levels - 1) * m.up_down_scale_factor ∧
    (m.decodeBody t true).w = t.w * 2 ^ (m.levels - 1) * m.up_down_scale_factor := by
  obtain ⟨fn, fh, fw⟩ := up_fold_shape m hmix m.levels le_rfl
    (conv1x1 (m.cLevel (m.levels - 1)) m.up_in_conv (scaleMul t m.scale_factor))
  have hmin : min m.levels (m.levels - 1) = m.levels - 1 := by omega
  rw [hmin] at fh fw
  refine ⟨fn, ?_, ?_, ?_⟩
  · show (m.out_channels * m.up_down_scale_factor ^ 2) / m.up_down_scale_factor ^ 2
      = m.out_channels
    exact Nat.mul_div_cancel _ (pow_pos hr 2)
  · show ((List.range m.levels).foldl m.upStage
      (conv1x1 (m.cLevel (m.levels - 1)) m.up_in_conv (scaleMul t m.scale_factor))).h
        * m.up_down_scale_factor = t.h * 2 ^ (m.levels - 1) * m.up_down_scale_factor
    rw [fh]
    rfl
  · show ((List.range m.levels).foldl m.upStage
      (conv1x1 (m.cLevel (m.levels - 1)) m.up_in_conv (scaleMul t m.scale_factor))).w
        * m.up_down_scale_factor = t.w * 2 ^ (m.levels - 1) * m.up_down_scale_factor
    rw [fw]
    rfl

/-! Claims on latent and round-trip shapes. -/

/-- Counterexample for claim C3: with the up/down scale factor 4 and the
default levels 2, an input of shape (1, 3, 32, 32) whose spatial dimensions
are divisible by scale^levels = 16 encodes to shape (1, 4, 4, 4) and not to
the claimed (batch, c_latent, H/scale^levels, W/scale^levels) = (1, 4, 2, 2):
the downsampling convolutions have stride 2 regardless of the scale factor. -/
theorem vq_encode_shape_cex :
    X32.c = M4.in_channels ∧
    M4.up_down_scale_factor ^ M4.levels ∣ X32.h ∧
    M4.up_down_scale_factor ^ M4.levels ∣ X32.w ∧
    2 ^ (M4.levels - 1) ∣ M4.c_hidden ∧
    (M4.encodeBody X32).shape = (1, 4, 4, 4) ∧
    (M4.encodeBody X32).shape
      ≠ (X32.n, M4.c_latent, X32.h / M4.up_down_scale_factor ^ M4.levels,
          X32.w / M4.up_down_scale_factor ^ M4.levels) := by
  decide

/-- Claim C3 (amended): for every configuration with shape-preserving mixing
blocks and every input whose spatial dimensions are divisible by the scale
factor and then by 2^(levels-1), encode produces a latent of shape
(batch, c_latent, H / (scale * 2^(levels-1)), W / (scale * 2^(levels-1))).
For the default scale factor 2 the divisor equals scale^levels; in
particular, for levels=2, scale=2, hidden=384, latent_channels=4 an input of
shape (1, 3, 64, 64) encodes to shape (1, 4, 16, 16). -/
theorem vq_encode_shape (m : VQModelPaella) (x : Tensor)
    (hmix : ∀ i, PreservesShape (m.down_mix i))
    (hr : 0 < m.up_down_scale_factor)
    (hrh : m.up_down_scale_factor ∣ x.h) (hrw : m.up_down_scale_factor ∣ x.w)
    (h2h : 2 ^ (m.levels - 1) ∣ x.h / m.up_down_scale_factor)
    (h2w : 2 ^ (m.levels - 1) ∣ x.w / m.up_down_scale_factor)
    (hh : 0 < x.h) (hw : 0 < x.w) :
    (m.encodeBody x).shape
      = (x.n, m.c_latent, x.h / (m.up_down_scale_factor * 2 ^ (m.levels - 1)),
          x.w / (m.up_down_scale_factor * 2 ^ (m.levels - 1))) := by
  obtain ⟨en, ec, eh, ew⟩ := encodeBody_shape_aux m x hmix hr hrh hrw h2h h2w hh hw
  rw [Tensor.shape, en, ec, eh, ew]

/-- Witness for the amended claim C3: the default configuration (levels=2,
scale=2, hidden=384, latent=4) maps a (1, 3, 64, 64) input to a
(1, 4, 16, 16) latent. -/
theorem vq_encode_shape_witness :
    M2.up_down_scale_factor ∣ X64.h ∧
    2 ^ (M2.levels - 1) ∣ X64.h / M2.up_down_scale_factor ∧
    (M2.encodeBody X64).shape = (1, 4, 16, 16) :=
  ⟨by decide, by decide,
    vq_encode_shape M2 X64 (fun _ _ => rfl) (by decide) (by decide) (by decide)
      (by decide) (by decide) (by decide) (by decide)⟩

/-- Counterexample for claim C1: with the up/down scale factor 3 and the
default levels 2, the input (1, 3, 9, 9) has channel count in_channels and
spatial dimensions divisible by scale^levels = 9, the configuration is valid
(c_hidden = 384 is divisible by 2^(levels-1) and out_channels = in_channels),
yet decode(encode(x)) has shape (1, 3, 6, 6), not the shape of x: the
stride-2 downsampling is not inverted by an odd scale factor. -/
theorem vq_roundtrip_shape_cex :
    X9.c = M3.in_channels ∧
    M3.up_down_scale_factor ^ M3.levels ∣ X9.h ∧
    M3.up_down_scale_factor ^ M3.levels ∣ X9.w ∧
    2 ^ (M3.levels - 1) ∣ M3.c_hidden ∧
    M3.out_channels = M3.in_channels ∧
    (M3.decodeBody (M3.encodeBody X9) true).shape = (1, 3, 6, 6) ∧
    (M3.decodeBody (M3.encodeBody X9) true).shape ≠ X9.shape := by
  decide

/-- Claim C1 (amended): for every configuration with out_channels equal to
in_channels and shape-preserving mixing blocks, and every input x with
channel count in_channels and spatial dimensions divisible by the scale
factor and then by 2^(levels-1), decode(encode(x)) with quantization
disabled returns a tensor of exactly the shape of x.  For the default scale
factor 2 the divisibility condition is exactly divisibility by
scale^levels. -/
theorem vq_roundtrip_shape (m : VQModelPaella) (x : Tensor)
    (hdmix : ∀ i, PreservesShape (m.down_mix i))
    (humix : ∀ i j, PreservesShape (m.up_mix i j))
    (hio : m.out_channels = m.in_channels) (hxc : x.c = m.in_channels)
    (hr : 0 < m.up_down_scale_factor)
    (hrh : m.up_down_scale_factor ∣ x.h) (hrw : m.up_down_scale_factor ∣ x.w)
    (h2h : 2 ^ (m.levels - 1) ∣ x.h / m.up_down_scale_factor)
    (h2w : 2 ^ (m.levels - 1) ∣ x.w / m.up_down_scale_factor)
    (hh : 0 < x.h) (hw : 0 < x.w) :
    (m.decodeBody (m.encodeBody x) true).shape = x.shape := by
  obtain ⟨en, ec, eh, ew⟩ := encodeBody_shape_aux m x hdmix hr hrh hrw h2h h2w hh hw
  obtain ⟨dn, dc, dh, dw⟩ := decodeBody_shape_aux m (m.encodeBody x) humix hr
  have hH : x.h / (m.up_down_scale_factor * 2 ^ (m.levels - 1)) * 2 ^ (m.levels - 1)
      * m.up_down_scale_factor = x.h := by
    rw [← Nat.div_div_eq_div_mul, Nat.div_mul_cancel h2h, Nat.div_mul_cancel hrh]
  have hW : x.w / (m.up_down_scale_factor * 2 ^ (m.levels - 1)) * 2 ^ (m.levels - 1)
      * m.up_down_scale_factor = x.w := by
    rw [← Nat.div_div_eq_div_mul, Nat.div_mul_cancel h2w, Nat.div_mul_cancel hrw]
  rw [Tensor.shape, Tensor.shape, dn, dc, dh, dw, en, eh, ew, hH, hW, hio, hxc]

/-- Witness for the amended claim C1: the default configuration round-trips
a (1, 3, 64, 64) input to an output of the same shape. -/
theorem vq_roundtrip_shape_witness :
    M2.out_channels = M2.in_channels ∧
    X64.c = M2.in_channels ∧
    M2.up_down_scale_factor ∣ X64.h ∧
    (M2.decodeBody (M2.encodeBody X64) true).shape = X64.shape :=
  ⟨by decide, by decide, by decide,
    vq_roundtrip_shape M2 X64 (fun _ _ => rfl) (fun _ _ _ => rfl) (by decide)
      (by decide) (by decide) (by decide) (by decide) (by decide) (by decide)
      (by decide) (by decide)⟩
